import Mathlib

/-!
Verification of the Pareto-front classifier `identify_pareto`
(src/app.py, lines 279–308) of the Robotic-Constructability repository.

The Python function takes a 2-column numeric array `scores` and two
boolean direction flags `bigger_is_better_x`, `bigger_is_better_y`.
It allocates a fresh boolean array `is_pareto = np.ones(n, dtype=bool)`
and, in one of four branches selected by the flags, runs nested loops:
for each `i`, it scans `j` over all indices and, at the first `j`
satisfying the branch's comparison together with `i != j`, sets
`is_pareto[i] = False` and breaks.  We embed points as pairs of
rationals, the mutable state as an explicit record, the inner loop
(with its break) as structural recursion over the index list, and the
outer loop as a fold.
-/

/-- A 2-D score point: `np` rows with two entries, embedded as pairs of
rationals (the data are real numbers; no NaN arises in `ℚ`). -/
abbrev Pt := ℚ × ℚ

/-- The comparison tested by the inner loop of each of the four branches
of `identify_pareto`, including the trailing `i != j` test, exactly as in
src/app.py:283-306.  `scores[k]` is read with `getD` (out-of-range reads
never occur: loops run over `range scores.length`).
* both flags true (app.py:286): `all(scores[j] >= scores[i]) and any(scores[j] > scores[i]) and i != j`;
* x only (app.py:292): `scores[j][0] >= scores[i][0] and scores[j][1] < scores[i][1] and i != j`;
* y only (app.py:298): `scores[j][0] < scores[i][0] and scores[j][1] >= scores[i][1] and i != j`;
* neither (app.py:304): `all(scores[j] <= scores[i]) and any(scores[j] < scores[i]) and i != j`. -/
def innerCond (bx byy : Bool) (scores : List Pt) (i j : Nat) : Bool :=
  let si := scores.getD i (0, 0)
  let sj := scores.getD j (0, 0)
  if bx && byy then
    (decide (si.1 ≤ sj.1) && decide (si.2 ≤ sj.2)) &&
      (decide (si.1 < sj.1) || decide (si.2 < sj.2)) && (i != j)
  else if bx then
    decide (si.1 ≤ sj.1) && decide (sj.2 < si.2) && (i != j)
  else if byy then
    decide (sj.1 < si.1) && decide (si.2 ≤ sj.2) && (i != j)
  else
    (decide (sj.1 ≤ si.1) && decide (sj.2 ≤ si.2)) &&
      (decide (sj.1 < si.1) || decide (sj.2 < si.2)) && (i != j)

/-- The mutable state of `identify_pareto`: the boolean array being
filled in and the (read-only) input array. -/
structure PState where
  is_pareto : List Bool
  scores : List Pt

/-- The inner `for j in range(n)` loop for a fixed `i`: at the first `j`
whose comparison holds, set `is_pareto[i] = False` and break
(src/app.py:284-288 and the analogous three branches). -/
def innerLoop (bx byy : Bool) (i : Nat) : List Nat → PState → PState
  | [], st => st
  | j :: js, st =>
    if innerCond bx byy st.scores i j then
      { st with is_pareto := st.is_pareto.set i false }
    else innerLoop bx byy i js st

/-- One iteration of the outer `for i in range(n)` loop. -/
def outerStep (bx byy : Bool) (st : PState) (i : Nat) : PState :=
  innerLoop bx byy i (List.range st.scores.length) st

/-- `identify_pareto` (src/app.py:279-308) as a state transformer:
start from the fresh all-true array `np.ones(scores.shape[0], dtype=bool)`
paired with the input, and run the outer loop. -/
def identify_pareto_imp (scores : List Pt) (bx byy : Bool) : PState :=
  (List.range scores.length).foldl (outerStep bx byy)
    ⟨List.replicate scores.length true, scores⟩

/-- The value returned by `identify_pareto`: the filled-in boolean mask. -/
def identify_pareto (scores : List Pt) (bx byy : Bool) : List Bool :=
  (identify_pareto_imp scores bx byy).is_pareto

/-- The mask entry the loops compute at index `i`: true iff no index `j`
passes the branch's comparison. -/
def maskStep (scores : List Pt) (bx byy : Bool) (i : Nat) : Bool :=
  ! (List.range scores.length).any (fun j => innerCond bx byy scores i j)

/-- The functional reading of the nested loops. -/
def paretoMask (scores : List Pt) (bx byy : Bool) : List Bool :=
  (List.range scores.length).map (fun i => maskStep scores bx byy i)

/-! ### Dominance relations, written from the spec's wording -/

/-- Spec, both axes MAXIMIZE: "j dominates i iff `j.x ≥ i.x AND j.y ≥ i.y
AND (j.x > i.x OR j.y > i.y)`". -/
def specDomMaxMax (pj pi : Pt) : Prop :=
  (pj.1 ≥ pi.1 ∧ pj.2 ≥ pi.2) ∧ (pj.1 > pi.1 ∨ pj.2 > pi.2)

/-- Spec, both axes MINIMIZE: "mirror rule with `≤`/`<`". -/
def specDomMinMin (pj pi : Pt) : Prop :=
  (pj.1 ≤ pi.1 ∧ pj.2 ≤ pi.2) ∧ (pj.1 < pi.1 ∨ pj.2 < pi.2)

/-- Spec, mixed (x MAXIMIZE, y MINIMIZE): "j dominates i iff
`j.x ≥ i.x AND j.y < i.y`". -/
def specDomMaxMin (pj pi : Pt) : Prop :=
  pj.1 ≥ pi.1 ∧ pj.2 < pi.2

/-- Spec, mixed (x MINIMIZE, y MAXIMIZE): "j dominates i iff
`j.x < i.x AND j.y ≥ i.y`". -/
def specDomMinMax (pj pi : Pt) : Prop :=
  pj.1 < pi.1 ∧ pj.2 ≥ pi.2

/-! ### The imperative loops compute `paretoMask` -/

theorem innerLoop_scores (bx byy : Bool) (i : Nat) (js : List Nat) (st : PState) :
    (innerLoop bx byy i js st).scores = st.scores := by
  induction js generalizing st with
  | nil => rfl
  | cons j js ih =>
    by_cases h : innerCond bx byy st.scores i j = true
    · simp [innerLoop, h]
    · simp [innerLoop, h, ih]

theorem innerLoop_eq (bx byy : Bool) (i : Nat) (js : List Nat) (st : PState) :
    innerLoop bx byy i js st =
      if js.any (fun j => innerCond bx byy st.scores i j) then
        { st with is_pareto := st.is_pareto.set i false }
      else st := by
  induction js generalizing st with
  | nil => rfl
  | cons j js ih =>
    by_cases h : innerCond bx byy st.scores i j = true
    · simp [innerLoop, h]
    · simp [innerLoop, h, ih]

theorem foldl_outerStep_scores (bx byy : Bool) (l : List Nat) (st : PState) :
    (l.foldl (outerStep bx byy) st).scores = st.scores := by
  induction l generalizing st with
  | nil => rfl
  | cons a l ih => rw [List.foldl_cons, ih, outerStep, innerLoop_scores]

theorem foldl_outerStep_inv (scores : List Pt) (bx byy : Bool) :
    ∀ k : Nat,
      (List.range k).foldl (outerStep bx byy)
          ⟨List.replicate scores.length true, scores⟩ =
        ⟨(List.range scores.length).map
            (fun i => if i < k then maskStep scores bx byy i else true), scores⟩ := by
  intro k
  induction k with
  | zero =>
    simp [PState.mk.injEq]
  | succ k ih =>
    rw [List.range_succ, List.foldl_append, ih]
    simp only [List.foldl_cons, List.foldl_nil, outerStep, innerLoop_eq]
    by_cases h :
        (List.range scores.length).any (fun j => innerCond bx byy scores k j) = true
    · simp only [h, if_true, PState.mk.injEq, and_true]
      apply List.ext_getElem
      · simp
      · intro i h1 h2
        simp only [List.length_set, List.length_map, List.length_range] at h1
        rw [List.getElem_set]
        simp only [List.getElem_map, List.getElem_range]
        by_cases hik : k = i
        · subst hik
          simp [maskStep, h]
        · rw [if_neg hik]
          have : i < k ↔ i < k + 1 := by omega
          exact if_congr this rfl rfl
    · simp only [h, if_false, PState.mk.injEq, and_true, Bool.false_eq_true]
      apply List.map_congr_left
      intro a ha
      by_cases hak : a = k
      · subst hak
        have h1 : ¬ a < a := by omega
        have h2 : a < a + 1 := by omega
        rw [if_neg h1, if_pos h2]
        simp [maskStep, h]
      · have : a < k ↔ a < k + 1 := by omega
        exact if_congr this rfl rfl

theorem identify_pareto_eq (scores : List Pt) (bx byy : Bool) :
    identify_pareto scores bx byy = paretoMask scores bx byy := by
  rw [identify_pareto, identify_pareto_imp, foldl_outerStep_inv scores bx byy scores.length]
  rw [paretoMask]
  apply List.map_congr_left
  intro i hi
  rw [if_pos (List.mem_range.mp hi)]

theorem identify_pareto_imp_scores (scores : List Pt) (bx byy : Bool) :
    (identify_pareto_imp scores bx byy).scores = scores := by
  rw [identify_pareto_imp, foldl_outerStep_inv scores bx byy scores.length]

/-! ### Entry-wise characterization of the returned mask -/

theorem getD_identify_pareto (scores : List Pt) (bx byy : Bool) (i : Nat)
    (h : i < scores.length) :
    ((identify_pareto scores bx byy).getD i false = true ↔
      ∀ j, j < scores.length → innerCond bx byy scores i j = false) := by
  rw [identify_pareto_eq, paretoMask]
  have hlen : i < ((List.range scores.length).map
      (fun i => maskStep scores bx byy i)).length := by simpa using h
  rw [List.getD_eq_getElem _ _ hlen, List.getElem_map, List.getElem_range, maskStep]
  simp only [Bool.not_eq_true', List.any_eq_false, List.mem_range, Bool.not_eq_true]

theorem innerCond_tt (scores : List Pt) (i j : Nat)
    (hi : i < scores.length) (hj : j < scores.length) :
    (innerCond true true scores i j = true ↔
      specDomMaxMax (scores.get ⟨j, hj⟩) (scores.get ⟨i, hi⟩) ∧ j ≠ i) := by
  simp only [innerCond]
  rw [List.getD_eq_getElem scores _ hi, List.getD_eq_getElem scores _ hj]
  simp [specDomMaxMax, ne_comm]
  try tauto

theorem innerCond_ff (scores : List Pt) (i j : Nat)
    (hi : i < scores.length) (hj : j < scores.length) :
    (innerCond false false scores i j = true ↔
      specDomMinMin (scores.get ⟨j, hj⟩) (scores.get ⟨i, hi⟩) ∧ j ≠ i) := by
  simp only [innerCond]
  rw [List.getD_eq_getElem scores _ hi, List.getD_eq_getElem scores _ hj]
  simp [specDomMinMin, ne_comm]
  try tauto

theorem innerCond_tf (scores : List Pt) (i j : Nat)
    (hi : i < scores.length) (hj : j < scores.length) :
    (innerCond true false scores i j = true ↔
      specDomMaxMin (scores.get ⟨j, hj⟩) (scores.get ⟨i, hi⟩) ∧ j ≠ i) := by
  simp only [innerCond]
  rw [List.getD_eq_getElem scores _ hi, List.getD_eq_getElem scores _ hj]
  simp [specDomMaxMin, ne_comm]
  try tauto

theorem innerCond_ft (scores : List Pt) (i j : Nat)
    (hi : i < scores.length) (hj : j < scores.length) :
    (innerCond false true scores i j = true ↔
      specDomMinMax (scores.get ⟨j, hj⟩) (scores.get ⟨i, hi⟩) ∧ j ≠ i) := by
  simp only [innerCond]
  rw [List.getD_eq_getElem scores _ hi, List.getD_eq_getElem scores _ hj]
  simp [specDomMinMax, ne_comm]
  try tauto

/-- Generic front-membership reading of a mask entry: for any dominance
predicate `dom` matching the branch's inner condition, entry `i` is true
iff no other index dominates `i`. -/
theorem mask_true_iff_gen (scores : List Pt) (bx byy : Bool)
    (dom : Pt → Pt → Prop)
    (hco : ∀ i j, ∀ hi : i < scores.length, ∀ hj : j < scores.length,
      innerCond bx byy scores i j = true ↔
        dom (scores.get ⟨j, hj⟩) (scores.get ⟨i, hi⟩) ∧ j ≠ i)
    (i : Nat) (h : i < scores.length) :
    ((identify_pareto scores bx byy).getD i false = true ↔
      ¬ ∃ j, ∃ hj : j < scores.length, j ≠ i ∧
        dom (scores.get ⟨j, hj⟩) (scores.get ⟨i, h⟩)) := by
  rw [getD_identify_pareto scores bx byy i h]
  constructor
  · rintro hall ⟨j, hj, hne, hdom⟩
    have ht : innerCond bx byy scores i j = true := (hco i j h hj).mpr ⟨hdom, hne⟩
    rw [hall j hj] at ht
    exact Bool.false_ne_true ht
  · intro hnone j hj
    by_contra hne
    have ht : innerCond bx byy scores i j = true := by
      cases hcc : innerCond bx byy scores i j
      · exact absurd hcc hne
      · rfl
    obtain ⟨hd, hji⟩ := (hco i j h hj).mp ht
    exact hnone ⟨j, hj, hji, hd⟩

theorem any_congr_aux {l : List Nat} {p q : Nat → Bool}
    (h : ∀ x ∈ l, p x = q x) : l.any p = l.any q := by
  induction l with
  | nil => rfl
  | cons a l ih =>
    rw [List.any_cons, List.any_cons, h a (by simp),
      ih (fun x hx => h x (by simp [hx]))]

/-- Exchange the two coordinates of a point. -/
def swapPt (p : Pt) : Pt := (p.2, p.1)

theorem innerCond_swap (scores : List Pt) (b : Bool) (i j : Nat)
    (hi : i < scores.length) (hj : j < scores.length) :
    innerCond b b (scores.map swapPt) i j = innerCond b b scores i j := by
  have hi' : i < (scores.map swapPt).length := by simpa using hi
  have hj' : j < (scores.map swapPt).length := by simpa using hj
  have e1 : (scores.map swapPt).get ⟨j, hj'⟩ = swapPt (scores.get ⟨j, hj⟩) := by simp
  have e2 : (scores.map swapPt).get ⟨i, hi'⟩ = swapPt (scores.get ⟨i, hi⟩) := by simp
  rw [Bool.eq_iff_iff]
  cases b
  · rw [innerCond_ff (scores.map swapPt) i j hi' hj', innerCond_ff scores i j hi hj, e1, e2]
    simp only [specDomMinMin, swapPt]
    tauto
  · rw [innerCond_tt (scores.map swapPt) i j hi' hj', innerCond_tt scores i j hi hj, e1, e2]
    simp only [specDomMaxMax, swapPt, ge_iff_le, gt_iff_lt]
    tauto

/-- Lexicographic order on points, used to exhibit a non-dominated point. -/
def lexLe (p q : Pt) : Prop := p.1 < q.1 ∨ (p.1 = q.1 ∧ p.2 ≤ q.2)

theorem lexLe_total (a b : Pt) : lexLe a b ∨ lexLe b a := by
  rcases lt_trichotomy a.1 b.1 with h | h | h
  · exact Or.inl (Or.inl h)
  · rcases le_total a.2 b.2 with h2 | h2
    · exact Or.inl (Or.inr ⟨h, h2⟩)
    · exact Or.inr (Or.inr ⟨h.symm, h2⟩)
  · exact Or.inr (Or.inl h)

theorem lexLe_trans (a b c : Pt) (h1 : lexLe a b) (h2 : lexLe b c) : lexLe a c := by
  rcases h1 with h1 | ⟨he1, hl1⟩
  · rcases h2 with h2 | ⟨he2, _⟩
    · exact Or.inl (lt_trans h1 h2)
    · exact Or.inl (he2 ▸ h1)
  · rcases h2 with h2 | ⟨he2, hl2⟩
    · exact Or.inl (he1 ▸ h2)
    · exact Or.inr ⟨he1.trans he2, hl1.trans hl2⟩

/-- Every nonempty list of points has an element maximal for a total
transitive comparison. -/
theorem exists_list_top (r : Pt → Pt → Prop)
    (htot : ∀ a b, r a b ∨ r b a)
    (htrans : ∀ a b c, r a b → r b c → r a c) :
    ∀ l : List Pt, l ≠ [] → ∃ v ∈ l, ∀ w ∈ l, r w v := by
  intro l
  induction l with
  | nil => intro h; exact absurd rfl h
  | cons a l ih =>
    intro _
    cases l with
    | nil =>
      refine ⟨a, by simp, ?_⟩
      intro w hw
      rw [List.mem_singleton] at hw
      subst hw
      rcases htot w w with h | h <;> exact h
    | cons b l2 =>
      obtain ⟨v, hv, hmax⟩ := ih (by simp)
      rcases htot v a with h | h
      · refine ⟨a, by simp, ?_⟩
        intro w hw
        rcases List.mem_cons.mp hw with rfl | hw
        · rcases htot w w with h2 | h2 <;> exact h2
        · exact htrans w v a (hmax w hw) h
      · refine ⟨v, List.mem_cons_of_mem a hv, ?_⟩
        intro w hw
        rcases List.mem_cons.mp hw with rfl | hw
        · exact h
        · exact hmax w hw

/-- If some point of the input is dominated by no point at all, the
returned mask contains a true entry. -/
theorem mask_any_of_best (scores : List Pt) (bx byy : Bool)
    (dom : Pt → Pt → Prop)
    (hco : ∀ i j, ∀ hi : i < scores.length, ∀ hj : j < scores.length,
      innerCond bx byy scores i j = true ↔
        dom (scores.get ⟨j, hj⟩) (scores.get ⟨i, hi⟩) ∧ j ≠ i)
    (v : Pt) (hv : v ∈ scores) (hbest : ∀ w ∈ scores, ¬ dom w v) :
    (identify_pareto scores bx byy).any (fun b => b) = true := by
  obtain ⟨i, hi, hvi⟩ := List.mem_iff_getElem.mp hv
  have hget : scores.get ⟨i, hi⟩ = v := by rw [List.get_eq_getElem]; exact hvi
  have hmask : (identify_pareto scores bx byy).getD i false = true := by
    rw [mask_true_iff_gen scores bx byy dom hco i hi]
    rintro ⟨j, hj, hne, hdom⟩
    have hjm : scores.get ⟨j, hj⟩ ∈ scores := List.get_mem scores j hj
    rw [hget] at hdom
    exact hbest _ hjm hdom
  have hlen : i < (identify_pareto scores bx byy).length := by
    rw [identify_pareto_eq, paretoMask, List.length_map, List.length_range]
    exact hi
  refine List.any_eq_true.mpr
    ⟨(identify_pareto scores bx byy).get ⟨i, hlen⟩, List.get_mem _ _ _, ?_⟩
  show (identify_pareto scores bx byy).get ⟨i, hlen⟩ = true
  rw [List.get_eq_getElem, ← List.getD_eq_getElem _ false hlen]
  exact hmask

/-- In the source the direction parameters are used only as `if`/`elif`
conditions (src/app.py:283, 289, 295); Python evaluates any value there by
truthiness, so a direction is accepted whether or not it lies in the
enumerated set.  This wrapper models integer-coded directions: nonzero
means "bigger is better". -/
def identify_pareto_any (scores : List Pt) (dx dy : Int) : List Bool :=
  identify_pareto scores (dx != 0) (dy != 0)

/-- A sample input used to instantiate hypotheses of the claim theorems. -/
def demoA : List Pt := [(1, 2), (2, 1), (0, 0)]

/-! ### The claims -/

/-- C1: with both axes MAXIMIZE (and, mirrored, both MINIMIZE), the mask
marks index `i` true iff no other index `j` holds a point weakly better
on both coordinates and strictly better on at least one — i.e. the mask
is exactly the Pareto non-dominated set under weak dominance with
at-least-one-strict. -/
theorem claim_C1_pure_front (scores : List Pt) (i : Nat) (h : i < scores.length) :
    ((identify_pareto scores true true).getD i false = true ↔
      ¬ ∃ j, ∃ hj : j < scores.length, j ≠ i ∧
        specDomMaxMax (scores.get ⟨j, hj⟩) (scores.get ⟨i, h⟩))
  ∧ ((identify_pareto scores false false).getD i false = true ↔
      ¬ ∃ j, ∃ hj : j < scores.length, j ≠ i ∧
        specDomMinMin (scores.get ⟨j, hj⟩) (scores.get ⟨i, h⟩)) :=
  ⟨mask_true_iff_gen scores true true specDomMaxMax
      (fun i j hi hj => innerCond_tt scores i j hi hj) i h,
   mask_true_iff_gen scores false false specDomMinMin
      (fun i j hi hj => innerCond_ff scores i j hi hj) i h⟩

/-- C1, witness: the characterization instantiated at a concrete input. -/
theorem claim_C1_pure_front_witness :
    ((identify_pareto demoA true true).getD 0 false = true ↔
      ¬ ∃ j, ∃ hj : j < demoA.length, j ≠ 0 ∧
        specDomMaxMax (demoA.get ⟨j, hj⟩) (demoA.get ⟨0, by decide⟩))
  ∧ ((identify_pareto demoA false false).getD 0 false = true ↔
      ¬ ∃ j, ∃ hj : j < demoA.length, j ≠ 0 ∧
        specDomMinMin (demoA.get ⟨j, hj⟩) (demoA.get ⟨0, by decide⟩)) :=
  claim_C1_pure_front demoA 0 (by decide)

/-- C2: under a mixed direction pair the mask marks `i` true iff no other
index dominates it under the asymmetric rule: for (x MAXIMIZE,
y MINIMIZE), `j.x ≥ i.x` and `j.y < i.y`; for (x MINIMIZE, y MAXIMIZE),
`j.x < i.x` and `j.y ≥ i.y`. -/
theorem claim_C2_mixed_front (scores : List Pt) (i : Nat) (h : i < scores.length) :
    ((identify_pareto scores true false).getD i false = true ↔
      ¬ ∃ j, ∃ hj : j < scores.length, j ≠ i ∧
        specDomMaxMin (scores.get ⟨j, hj⟩) (scores.get ⟨i, h⟩))
  ∧ ((identify_pareto scores false true).getD i false = true ↔
      ¬ ∃ j, ∃ hj : j < scores.length, j ≠ i ∧
        specDomMinMax (scores.get ⟨j, hj⟩) (scores.get ⟨i, h⟩)) :=
  ⟨mask_true_iff_gen scores true false specDomMaxMin
      (fun i j hi hj => innerCond_tf scores i j hi hj) i h,
   mask_true_iff_gen scores false true specDomMinMax
      (fun i j hi hj => innerCond_ft scores i j hi hj) i h⟩

/-- C2, witness: the characterization instantiated at a concrete input. -/
theorem claim_C2_mixed_front_witness :
    ((identify_pareto demoA true false).getD 1 false = true ↔
      ¬ ∃ j, ∃ hj : j < demoA.length, j ≠ 1 ∧
        specDomMaxMin (demoA.get ⟨j, hj⟩) (demoA.get ⟨1, by decide⟩))
  ∧ ((identify_pareto demoA false true).getD 1 false = true ↔
      ¬ ∃ j, ∃ hj : j < demoA.length, j ≠ 1 ∧
        specDomMinMax (demoA.get ⟨j, hj⟩) (demoA.get ⟨1, by decide⟩)) :=
  claim_C2_mixed_front demoA 1 (by decide)

/-- C3, counterexample: with direction value 2 — outside the enumerated
set {MAXIMIZE, MINIMIZE} (coded 1 and 0) — the classifier does not fail
with an InvalidInput error: the source has no validation and reads the
direction arguments only by truthiness, so it completes and returns the
full mask `[true]` on the one-point input, where the claim requires a
failure with no result. -/
theorem claim_C3_cex : identify_pareto_any [((0 : ℚ), (0 : ℚ))] 2 2 = [true] := by
  decide

/-- C3, amended: the classifier performs no input validation and has no
failure mode at all: any integer-coded direction values are accepted by
truthiness, and for every point list it returns a complete mask of the
input's length. -/
theorem claim_C3_amended (scores : List Pt) (dx dy : Int) :
    (identify_pareto_any scores dx dy).length = scores.length := by
  rw [identify_pareto_any, identify_pareto_eq, paretoMask, List.length_map,
    List.length_range]

/-- C4: the mask always has the length of the input, and the empty input
yields the empty mask. -/
theorem claim_C4_length :
    (∀ (scores : List Pt) (bx byy : Bool),
        (identify_pareto scores bx byy).length = scores.length)
  ∧ identify_pareto [] true true = [] := by
  constructor
  · intro scores bx byy
    rw [identify_pareto_eq, paretoMask, List.length_map, List.length_range]
  · rfl

/-- C5: under a mixed pair a point equal on the MINIMIZE axis and
strictly better on the MAXIMIZE axis does not dominate: the mask entry
stays true unless some other point is strictly better (strict `<`) on
the MINIMIZE axis and at least as good on the MAXIMIZE axis. -/
theorem claim_C5_mixed_asym (scores : List Pt) (i : Nat) (h : i < scores.length) :
    ((∀ j, ∀ hj : j < scores.length, j ≠ i →
        ¬ ((scores.get ⟨j, hj⟩).2 < (scores.get ⟨i, h⟩).2 ∧
           (scores.get ⟨i, h⟩).1 ≤ (scores.get ⟨j, hj⟩).1)) →
      (identify_pareto scores true false).getD i false = true)
  ∧ ((∀ j, ∀ hj : j < scores.length, j ≠ i →
        ¬ ((scores.get ⟨j, hj⟩).1 < (scores.get ⟨i, h⟩).1 ∧
           (scores.get ⟨i, h⟩).2 ≤ (scores.get ⟨j, hj⟩).2)) →
      (identify_pareto scores false true).getD i false = true)
  ∧ (∀ pj pi : Pt, pj.2 = pi.2 → ¬ specDomMaxMin pj pi)
  ∧ (∀ pj pi : Pt, pj.1 = pi.1 → ¬ specDomMinMax pj pi) := by
  refine ⟨?_, ?_, ?_, ?_⟩
  · intro hno
    rw [mask_true_iff_gen scores true false specDomMaxMin
      (fun i j hi hj => innerCond_tf scores i j hi hj) i h]
    rintro ⟨j, hj, hne, hdom⟩
    simp only [specDomMaxMin, ge_iff_le] at hdom
    exact hno j hj hne ⟨hdom.2, hdom.1⟩
  · intro hno
    rw [mask_true_iff_gen scores false true specDomMinMax
      (fun i j hi hj => innerCond_ft scores i j hi hj) i h]
    rintro ⟨j, hj, hne, hdom⟩
    simp only [specDomMinMax, ge_iff_le] at hdom
    exact hno j hj hne ⟨hdom.1, hdom.2⟩
  · intro pj pi he hdom
    simp only [specDomMaxMin] at hdom
    have h2 := hdom.2
    rw [he] at h2
    exact lt_irrefl _ h2
  · intro pj pi he hdom
    simp only [specDomMinMax] at hdom
    have h2 := hdom.1
    rw [he] at h2
    exact lt_irrefl _ h2

/-- C5, witness: the statement instantiated at a concrete input. -/
theorem claim_C5_mixed_asym_witness :
    ((∀ j, ∀ hj : j < demoA.length, j ≠ 0 →
        ¬ ((demoA.get ⟨j, hj⟩).2 < (demoA.get ⟨0, by decide⟩).2 ∧
           (demoA.get ⟨0, by decide⟩).1 ≤ (demoA.get ⟨j, hj⟩).1)) →
      (identify_pareto demoA true false).getD 0 false = true)
  ∧ ((∀ j, ∀ hj : j < demoA.length, j ≠ 0 →
        ¬ ((demoA.get ⟨j, hj⟩).1 < (demoA.get ⟨0, by decide⟩).1 ∧
           (demoA.get ⟨0, by decide⟩).2 ≤ (demoA.get ⟨j, hj⟩).2)) →
      (identify_pareto demoA false true).getD 0 false = true)
  ∧ (∀ pj pi : Pt, pj.2 = pi.2 → ¬ specDomMaxMin pj pi)
  ∧ (∀ pj pi : Pt, pj.1 = pi.1 → ¬ specDomMinMax pj pi) :=
  claim_C5_mixed_asym demoA 0 (by decide)

/-- A sample all-identical input. -/
def demoC : List Pt := [(1, 1), (1, 1)]

/-- C6: under the pure direction pairs, an input of all-identical points
has every mask entry true, and equal points never dominate each other. -/
theorem claim_C6_identical (scores : List Pt) (b : Bool) (c : Pt)
    (hall : ∀ p ∈ scores, p = c) :
    identify_pareto scores b b = List.replicate scores.length true
  ∧ ∀ p q : Pt, p = q → ¬ specDomMaxMax q p ∧ ¬ specDomMinMin q p := by
  constructor
  · apply List.ext_getElem
    · rw [identify_pareto_eq, paretoMask, List.length_map, List.length_range,
        List.length_replicate]
    · intro i h1 h2
      rw [List.getElem_replicate]
      have hi : i < scores.length := by
        rw [identify_pareto_eq, paretoMask, List.length_map, List.length_range] at h1
        exact h1
      rw [← List.getD_eq_getElem _ false h1]
      rw [getD_identify_pareto scores b b i hi]
      intro j hj
      cases hcc : innerCond b b scores i j
      · rfl
      · exfalso
        have hsi : scores.get ⟨i, hi⟩ = c := hall _ (List.get_mem scores i hi)
        have hsj : scores.get ⟨j, hj⟩ = c := hall _ (List.get_mem scores j hj)
        cases b
        · obtain ⟨hd, _⟩ := (innerCond_ff scores i j hi hj).mp hcc
          rw [hsi, hsj] at hd
          simp only [specDomMinMin] at hd
          rcases hd.2 with hl | hl <;> exact lt_irrefl _ hl
        · obtain ⟨hd, _⟩ := (innerCond_tt scores i j hi hj).mp hcc
          rw [hsi, hsj] at hd
          simp only [specDomMaxMax, gt_iff_lt] at hd
          rcases hd.2 with hl | hl <;> exact lt_irrefl _ hl
  · rintro p q rfl
    constructor
    · intro hd
      simp only [specDomMaxMax, gt_iff_lt] at hd
      rcases hd.2 with hl | hl <;> exact lt_irrefl _ hl
    · intro hd
      simp only [specDomMinMin] at hd
      rcases hd.2 with hl | hl <;> exact lt_irrefl _ hl

/-- C6, witness: the statement instantiated at a concrete input. -/
theorem claim_C6_identical_witness :
    identify_pareto demoC true true = List.replicate demoC.length true
  ∧ ∀ p q : Pt, p = q → ¬ specDomMaxMax q p ∧ ¬ specDomMinMin q p :=
  claim_C6_identical demoC true (1, 1) (by decide)

/-- C7: for the pure direction pairs, exchanging the two coordinates of
every point (directions exchanged correspondingly — a pure pair is
unchanged) leaves the mask unchanged. -/
theorem claim_C7_swap (scores : List Pt) (b : Bool) :
    identify_pareto (scores.map swapPt) b b = identify_pareto scores b b := by
  rw [identify_pareto_eq, identify_pareto_eq, paretoMask, paretoMask, List.length_map]
  apply List.map_congr_left
  intro i hi
  have hi2 := List.mem_range.mp hi
  simp only [maskStep, List.length_map]
  have hpt : ∀ j ∈ List.range scores.length,
      innerCond b b (scores.map swapPt) i j = innerCond b b scores i j :=
    fun j hj => innerCond_swap scores b i j hi2 (List.mem_range.mp hj)
  rw [any_congr_aux hpt]

/-- C8: the classifier is deterministic — equal inputs (point list and
both direction flags) give identical masks and identical final states;
the explicit state threading shows no other state influences the run. -/
theorem claim_C8_deterministic (s t : List Pt) (bx1 by1 bx2 by2 : Bool)
    (hs : s = t) (hx : bx1 = bx2) (hy : by1 = by2) :
    identify_pareto s bx1 by1 = identify_pareto t bx2 by2
  ∧ identify_pareto_imp s bx1 by1 = identify_pareto_imp t bx2 by2 := by
  subst hs hx hy
  exact ⟨rfl, rfl⟩

/-- C8, witness: two invocations on the same concrete input agree. -/
theorem claim_C8_deterministic_witness :
    identify_pareto demoA true false = identify_pareto demoA true false
  ∧ identify_pareto_imp demoA true false = identify_pareto_imp demoA true false :=
  claim_C8_deterministic demoA demoA true false true false rfl rfl rfl

/-- C9: the run never mutates the input points: from any reachable
state, the loop leaves the `scores` component untouched (the only write
in the body targets the freshly allocated mask), so the input list after
a call equals the input list before it. -/
theorem claim_C9_input_preserved :
    (∀ (bx byy : Bool) (l : List Nat) (m : List Bool) (s : List Pt),
        (l.foldl (outerStep bx byy) ⟨m, s⟩).scores = s)
  ∧ ∀ (scores : List Pt) (bx byy : Bool),
      (identify_pareto_imp scores bx byy).scores = scores :=
  ⟨fun bx byy l m s => foldl_outerStep_scores bx byy l ⟨m, s⟩,
   fun scores bx byy => identify_pareto_imp_scores scores bx byy⟩

/-- C10: on every non-empty input and all four direction pairs the mask
has at least one true entry: a lexicographically extremal point (pure
pairs) or a point extremal on the strict axis (mixed pairs) is dominated
by nothing. -/
theorem claim_C10_nonempty_front (scores : List Pt) (hne : scores ≠ [])
    (bx byy : Bool) :
    (identify_pareto scores bx byy).any (fun b => b) = true := by
  cases bx <;> cases byy
  · obtain ⟨v, hv, hbest⟩ := exists_list_top (fun p q => lexLe q p)
      (fun a b => lexLe_total b a)
      (fun a b c h1 h2 => lexLe_trans c b a h2 h1) scores hne
    refine mask_any_of_best scores false false specDomMinMin
      (fun i j hi hj => innerCond_ff scores i j hi hj) v hv ?_
    intro w hw hdom
    have hlex : lexLe v w := hbest w hw
    simp only [specDomMinMin] at hdom
    rcases hlex with hl | ⟨he, hle⟩
    · exact absurd hl (not_lt.mpr hdom.1.1)
    · rcases hdom.2 with h2 | h2
      · rw [he] at h2
        exact lt_irrefl _ h2
      · exact absurd h2 (not_lt.mpr hle)
  · obtain ⟨v, hv, hbest⟩ := exists_list_top (fun p q => q.1 ≤ p.1)
      (fun a b => le_total b.1 a.1)
      (fun a b c h1 h2 => le_trans h2 h1) scores hne
    refine mask_any_of_best scores false true specDomMinMax
      (fun i j hi hj => innerCond_ft scores i j hi hj) v hv ?_
    intro w hw hdom
    simp only [specDomMinMax] at hdom
    exact absurd hdom.1 (not_lt.mpr (hbest w hw))
  · obtain ⟨v, hv, hbest⟩ := exists_list_top (fun p q => q.2 ≤ p.2)
      (fun a b => le_total b.2 a.2)
      (fun a b c h1 h2 => le_trans h2 h1) scores hne
    refine mask_any_of_best scores true false specDomMaxMin
      (fun i j hi hj => innerCond_tf scores i j hi hj) v hv ?_
    intro w hw hdom
    simp only [specDomMaxMin] at hdom
    exact absurd hdom.2 (not_lt.mpr (hbest w hw))
  · obtain ⟨v, hv, hbest⟩ := exists_list_top lexLe lexLe_total lexLe_trans scores hne
    refine mask_any_of_best scores true true specDomMaxMax
      (fun i j hi hj => innerCond_tt scores i j hi hj) v hv ?_
    intro w hw hdom
    have hlex : lexLe w v := hbest w hw
    simp only [specDomMaxMax, ge_iff_le, gt_iff_lt] at hdom
    rcases hlex with hl | ⟨he, hle⟩
    · exact absurd hl (not_lt.mpr hdom.1.1)
    · rcases hdom.2 with h2 | h2
      · rw [he] at h2
        exact lt_irrefl _ h2
      · exact absurd h2 (not_lt.mpr hle)

/-- C10, witness: a concrete non-empty input has a true entry. -/
theorem claim_C10_nonempty_front_witness :
    (identify_pareto demoA true true).any (fun b => b) = true :=
  claim_C10_nonempty_front demoA (by decide) true true
